import Mathlib

/-!
# Verification of the streaming completion orchestrator

A shallow embedding, in Lean 4, of the core of the repository:

* `processReqMessages` / `interleaveUserAndAssistantMessages`
  (src/renderer/src/services/ModelMessageService.ts),
* `formatCitationsFromBlock` (src/renderer/src/store/messageBlock.ts),
* the streaming branch of `completions` in
  src/renderer/src/providers/AiProvider/OpenAIProvider.ts: the per-chunk
  reasoning/content splitter (`isReasoningJustDone` and the `for await` loop of
  `processStream`), the `processToolUses`/`processStream` tool-call recursion,
  and the timestamp/usage bookkeeping, and
* the non-streaming path of `check`.

JavaScript mutable closure variables become explicit state records threaded
through the functions; wall-clock readings (`new Date().getTime()`) become a
monotone `Nat` clock that ticks once per consumed chunk and is strictly
positive; machine integers do not overflow in any modelled quantity, so `Nat`
is used directly.  External collaborators (the SDK stream constructor and
`parseAndCallTools`) are parameters of the loop model.
-/

namespace CherryStudio

/-! ## JavaScript-style helpers -/

/-- JS truthiness of an optional string: `undefined`, `null` and `""` are
falsy; a non-empty string is truthy (returned unchanged). -/
def truthy : Option String → Option String
  | none => none
  | some s => if s = "" then none else some s

/-- JS `a || b` for optional strings, normalised to the truthy value picked
(`none` when both operands are falsy). -/
def jsOr (a b : Option String) : Option String :=
  match truthy a with
  | some s => some s
  | none => truthy b

/-- JS `hay.includes(needle)`. -/
def jsIncludes (hay needle : String) : Bool :=
  decide (needle.toList <:+: hay.toList)

@[simp] theorem truthy_none : truthy none = none := rfl

@[simp] theorem truthy_some_empty : truthy (some "") = none := by
  simp [truthy]

theorem truthy_some_of_ne {s : String} (h : s ≠ "") : truthy (some s) = some s := by
  simp [truthy, h]

/-! ## Message normalizer post-pass (ModelMessageService.ts)

`ChatCompletionMessageParam` is embedded as a role plus plain-text content;
only those two fields are read or written by the pass. -/

/-- The five request-message roles of the OpenAI chat API. -/
inductive Role
  | system
  | user
  | assistant
  | tool
  | developer
deriving DecidableEq, Repr

/-- A vendor-ready request message (`ChatCompletionMessageParam`). -/
structure ReqMessage where
  role : Role
  content : String
deriving DecidableEq, Repr

/-- `needStrictlyInterleaveUserAndAssistantMessages` (ModelMessageService.ts,
line 15): the pass applies exactly to model id `deepseek-reasoner`. -/
def needStrictlyInterleaveUserAndAssistantMessages (modelId : String) : Bool :=
  modelId == "deepseek-reasoner"

/-- The empty message inserted between two adjacent same-role messages
(ModelMessageService.ts, lines 43-47): role `assistant` when the duplicated
role is `user`, role `user` otherwise. -/
def emptySeparator (r : Role) : ReqMessage :=
  ⟨if r = Role.user then Role.assistant else Role.user, ""⟩

/-- The loop body of `interleaveUserAndAssistantMessages` (lines 36-52):
`prev` is `messages[i-1]`, the comparison is always against the *original*
previous message, never against an inserted separator. -/
def interleaveAux (prev : ReqMessage) : List ReqMessage → List ReqMessage
  | [] => []
  | m :: rest =>
    if m.role = prev.role then
      emptySeparator m.role :: m :: interleaveAux m rest
    else
      m :: interleaveAux m rest

/-- `interleaveUserAndAssistantMessages` (ModelMessageService.ts, lines
26-56).  The source copies each message with `{ ...messages[i] }`; the copy is
value-equal to the original, so the embedding keeps the message itself. -/
def interleaveUserAndAssistantMessages : List ReqMessage → List ReqMessage
  | [] => []
  | m :: rest => m :: interleaveAux m rest

/-- `processReqMessages` (ModelMessageService.ts, lines 4-13). -/
def processReqMessages (modelId : String) (reqMessages : List ReqMessage) :
    List ReqMessage :=
  if needStrictlyInterleaveUserAndAssistantMessages modelId then
    interleaveUserAndAssistantMessages reqMessages
  else
    reqMessages

/-- Claim-side reading of the interleaving pass: walk the pairs of consecutive
messages and, between every pair sharing a role, insert the empty
opposite-role separator.  Stated from the words of the claims; compared with
the source embedding in the theorems below. -/
def interleaveSpec : List ReqMessage → List ReqMessage
  | [] => []
  | [m] => [m]
  | m :: m2 :: rest =>
    if m2.role = m.role then
      m :: emptySeparator m2.role :: interleaveSpec (m2 :: rest)
    else
      m :: interleaveSpec (m2 :: rest)

theorem emptySeparator_role_ne (r : Role) : (emptySeparator r).role ≠ r := by
  cases r <;> simp [emptySeparator]

theorem cons_interleaveAux_eq_spec :
    ∀ (ms : List ReqMessage) (prev : ReqMessage),
      prev :: interleaveAux prev ms = interleaveSpec (prev :: ms) := by
  intro ms
  induction ms with
  | nil => intro prev; rfl
  | cons m rest ih =>
    intro prev
    by_cases h : m.role = prev.role <;>
      simp [interleaveAux, interleaveSpec, h, ← ih m]

theorem interleave_eq_spec (ms : List ReqMessage) :
    interleaveUserAndAssistantMessages ms = interleaveSpec ms := by
  cases ms with
  | nil => rfl
  | cons m rest =>
    simp [interleaveUserAndAssistantMessages, cons_interleaveAux_eq_spec rest m]

theorem chain_interleaveAux :
    ∀ (ms : List ReqMessage) (prev : ReqMessage),
      List.Chain (fun a b => a.role ≠ b.role) prev (interleaveAux prev ms) := by
  intro ms
  induction ms with
  | nil => intro prev; exact List.Chain.nil
  | cons m rest ih =>
    intro prev
    by_cases h : m.role = prev.role
    · simp only [interleaveAux, if_pos h]
      refine List.Chain.cons ?_ (List.Chain.cons ?_ (ih m))
      · rw [h]; exact fun hc => emptySeparator_role_ne m.role (h ▸ hc.symm)
      · exact emptySeparator_role_ne m.role
    · rw [interleaveAux, if_neg h]
      exact List.Chain.cons (fun hc => h hc.symm) (ih m)

theorem chain_interleave (ms : List ReqMessage) :
    List.Chain' (fun a b => a.role ≠ b.role)
      (interleaveUserAndAssistantMessages ms) := by
  cases ms with
  | nil => exact List.chain'_nil
  | cons m rest => exact chain_interleaveAux rest m

theorem sublist_interleaveAux :
    ∀ (ms : List ReqMessage) (prev : ReqMessage),
      ms.Sublist (interleaveAux prev ms) := by
  intro ms
  induction ms with
  | nil => intro prev; exact List.nil_sublist _
  | cons m rest ih =>
    intro prev
    by_cases h : m.role = prev.role
    · simp only [interleaveAux, if_pos h]
      exact List.Sublist.cons _ (List.Sublist.cons₂ _ (ih m))
    · simp only [interleaveAux, if_neg h]
      exact List.Sublist.cons₂ _ (ih m)

theorem sublist_interleave (ms : List ReqMessage) :
    ms.Sublist (interleaveUserAndAssistantMessages ms) := by
  cases ms with
  | nil => exact List.nil_sublist _
  | cons m rest =>
    exact List.Sublist.cons₂ _ (sublist_interleaveAux rest m)

/-- **C3.** For every input message sequence, when the strict-alternation pass
applies (model id `deepseek-reasoner`), the output of `processReqMessages`
contains no two consecutive entries whose shared role is `user` or
`assistant`; empty-content messages of the opposite role are inserted between
same-role neighbours, so input roles `[user, user, assistant, assistant]`
yield output roles
`[user, assistant(empty), user, assistant, user(empty), assistant]`. -/
theorem processReqMessages_strict_alternation :
    (∀ msgs : List ReqMessage,
      List.Chain'
        (fun a b => ¬(a.role = b.role ∧ (a.role = Role.user ∨ a.role = Role.assistant)))
        (processReqMessages "deepseek-reasoner" msgs)) ∧
    processReqMessages "deepseek-reasoner"
        [⟨Role.user, "u1"⟩, ⟨Role.user, "u2"⟩,
         ⟨Role.assistant, "a1"⟩, ⟨Role.assistant, "a2"⟩] =
      [⟨Role.user, "u1"⟩, ⟨Role.assistant, ""⟩, ⟨Role.user, "u2"⟩,
       ⟨Role.assistant, "a1"⟩, ⟨Role.user, ""⟩, ⟨Role.assistant, "a2"⟩] := by
  constructor
  · intro msgs
    have h := chain_interleave msgs
    have hp : processReqMessages "deepseek-reasoner" msgs =
        interleaveUserAndAssistantMessages msgs := rfl
    rw [hp]
    exact h.imp (fun a b hne hand => hne hand.1)
  · decide

/-- **C9.** For model id `deepseek-reasoner`, `processReqMessages` inserts an
empty-content separator between every pair of consecutive messages sharing the
same role of any kind (including `system` or `tool`), choosing role
`assistant` when the duplicated role is `user` and role `user` otherwise
(captured by the claim-side `interleaveSpec`, which the source pass equals);
hence the output never contains two adjacent entries with equal roles at all,
and the original messages appear unmodified, in their original relative order,
as a sublist of the output. -/
theorem processReqMessages_interleave_all_roles :
    (∀ msgs : List ReqMessage,
      processReqMessages "deepseek-reasoner" msgs = interleaveSpec msgs ∧
      List.Chain' (fun a b => a.role ≠ b.role)
        (processReqMessages "deepseek-reasoner" msgs) ∧
      msgs.Sublist (processReqMessages "deepseek-reasoner" msgs)) ∧
    processReqMessages "deepseek-reasoner"
        [⟨Role.system, "s1"⟩, ⟨Role.system, "s2"⟩, ⟨Role.tool, "t1"⟩, ⟨Role.tool, "t2"⟩] =
      [⟨Role.system, "s1"⟩, ⟨Role.user, ""⟩, ⟨Role.system, "s2"⟩,
       ⟨Role.tool, "t1"⟩, ⟨Role.user, ""⟩, ⟨Role.tool, "t2"⟩] := by
  constructor
  · intro msgs
    have hp : processReqMessages "deepseek-reasoner" msgs =
        interleaveUserAndAssistantMessages msgs := rfl
    refine ⟨hp.trans (interleave_eq_spec msgs), ?_, ?_⟩
    · rw [hp]; exact chain_interleave msgs
    · rw [hp]; exact sublist_interleave msgs
  · decide

/-! ## Citation harvester (store/messageBlock.ts, `formatCitationsFromBlock`)

The heterogeneous vendor payloads are embedded as a tagged variant; JS
`.map((x, index) => ...)` becomes the indexed map `jsMapIdx`; the URL parsing
of `new URL(u).hostname` is an external collaborator modelled by a
`hostnameOf` parameter (`none` models the constructor throwing, handled by the
source's `catch`). -/

/-- Indexed map, modelling JS `array.map((x, index) => f(index, x))` with the
running index threaded explicitly. -/
def jsMapIdx (f : Nat → α → β) : Nat → List α → List β
  | _, [] => []
  | n, x :: rest => f n x :: jsMapIdx f (n + 1) rest

/-- Citation list-entry type tag (`'websearch' | 'knowledge'`). -/
inductive CitationType
  | websearch
  | knowledge
deriving DecidableEq, Repr

/-- The common `Citation` record of CitationsList. -/
structure Citation where
  number : Nat
  url : String
  title : Option String := none
  hostname : Option String := none
  content : Option String := none
  showFavicon : Bool := false
  type : CitationType := CitationType.websearch
deriving DecidableEq, Repr

/-- `chunk.web` of a Gemini grounding chunk. -/
structure WebInfo where
  uri : Option String := none
  title : Option String := none
deriving DecidableEq, Repr

/-- A Gemini grounding chunk. -/
structure GroundingChunk where
  web : Option WebInfo := none
deriving DecidableEq, Repr

/-- The `url_citation` payload of an OpenAI result entry. -/
structure UrlCitationItem where
  url : String
  title : Option String := none
deriving DecidableEq, Repr

/-- A Zhipu/Hunyuan search result (`result.link || result.url`). -/
structure ZhipuResult where
  link : Option String := none
  url : Option String := none
  title : Option String := none
deriving DecidableEq, Repr

/-- A `WebSearchProviderResponse` result entry. -/
structure WebResult where
  url : String
  title : Option String := none
  content : Option String := none
deriving DecidableEq, Repr

/-- A knowledge-base reference. -/
structure KnowledgeReference where
  sourceUrl : String
  content : String
deriving DecidableEq, Repr

/-- `block.response`, discriminated on `block.response.source`; list fields are
optional, mirroring the `?.map(...) || []` guards.  `unhandled` stands for a
source value with no `case` in the `switch` (the citation list stays empty). -/
inductive WebSearchResults
  | gemini (groundingChunks : Option (List GroundingChunk))
  | openai (results : Option (List UrlCitationItem))
  | openrouterPerplexity (results : Option (List String))
  | zhipuHunyuan (results : Option (List ZhipuResult))
  | websearch (results : Option (List WebResult))
  | unhandled
deriving DecidableEq, Repr

/-- A `CitationMessageBlock`, restricted to the two fields the harvester
reads. -/
structure CitationBlock where
  response : Option WebSearchResults := none
  knowledge : Option (List KnowledgeReference) := none
deriving DecidableEq, Repr

/-- The `WebSearchSource.GEMINI` branch (messageBlock.ts, lines 155-163). -/
def geminiCitations (chunks : List GroundingChunk) : List Citation :=
  jsMapIdx
    (fun i chunk =>
      { number := i + 1
        url := ((chunk.web.bind WebInfo.uri).getD "")
        title := chunk.web.bind WebInfo.title
        showFavicon := false
        type := CitationType.websearch })
    0 chunks

/-- The `WebSearchSource.OPENAI` branch (lines 165-183): `hostname` is
`undefined` when the citation has a (truthy) title, else the parsed hostname,
falling back to the raw URL when parsing throws. -/
def openaiCitations (hostnameOf : String → Option String)
    (results : List UrlCitationItem) : List Citation :=
  jsMapIdx
    (fun i uc =>
      { number := i + 1
        url := uc.url
        title := uc.title
        hostname :=
          match truthy uc.title with
          | some _ => none
          | none => some ((hostnameOf uc.url).getD uc.url)
        showFavicon := true
        type := CitationType.websearch })
    0 results

/-- The `WebSearchSource.OPENROUTER`/`PERPLEXITY` branch (lines 185-207):
results are raw URL strings. -/
def urlListCitations (hostnameOf : String → Option String)
    (results : List String) : List Citation :=
  jsMapIdx
    (fun i u =>
      { number := i + 1
        url := u
        hostname := some ((hostnameOf u).getD u)
        showFavicon := true
        type := CitationType.websearch })
    0 results

/-- The `WebSearchSource.ZHIPU`/`HUNYUAN` branch (lines 209-219): the URL is
`result.link || result.url` (empty when both are falsy). -/
def zhipuCitations (results : List ZhipuResult) : List Citation :=
  jsMapIdx
    (fun i res =>
      { number := i + 1
        url := (jsOr res.link res.url).getD ""
        title := res.title
        showFavicon := true
        type := CitationType.websearch })
    0 results

/-- The `WebSearchSource.WEBSEARCH` branch (lines 220-230). -/
def websearchCitations (results : List WebResult) : List Citation :=
  jsMapIdx
    (fun i res =>
      { number := i + 1
        url := res.url
        title := res.title
        content := res.content
        showFavicon := true
        type := CitationType.websearch })
    0 results

/-- The knowledge-base block (lines 234-245). -/
def knowledgeCitations (results : List KnowledgeReference) : List Citation :=
  jsMapIdx
    (fun i res =>
      { number := i + 1
        url := res.sourceUrl
        title := some res.sourceUrl
        content := some res.content
        showFavicon := true
        type := CitationType.knowledge })
    0 results

/-- The `filter` of step 4 (lines 247-253): drop falsy URLs and URLs already
in `urlSet`; `urlSet` is the set of URLs of the kept earlier entries. -/
def dedupKeepFirst (urlSet : List String) : List Citation → List Citation
  | [] => []
  | c :: rest =>
    if c.url = "" ∨ c.url ∈ urlSet then
      dedupKeepFirst urlSet rest
    else
      c :: dedupKeepFirst (c.url :: urlSet) rest

/-- The `map` of step 4 (lines 254-257) with the running index made explicit:
`renumberFrom n` overwrites `number` with `index + 1` starting at index `n`. -/
def renumberFrom (n : Nat) : List Citation → List Citation
  | [] => []
  | c :: rest => { c with number := n + 1 } :: renumberFrom (n + 1) rest

/-- Step 4 of `formatCitationsFromBlock` (lines 246-257): deduplicate by URL
and renumber sequentially. -/
def dedupAndRenumber (cs : List Citation) : List Citation :=
  renumberFrom 0 (dedupKeepFirst [] cs)

/-- The web-search part of `formatCitationsFromBlock` (lines 152-232). -/
def webCitations (hostnameOf : String → Option String)
    (block : CitationBlock) : List Citation :=
  match block.response with
  | none => []
  | some results =>
    match results with
    | WebSearchResults.gemini chunks => (chunks.map geminiCitations).getD []
    | WebSearchResults.openai rs => (rs.map (openaiCitations hostnameOf)).getD []
    | WebSearchResults.openrouterPerplexity rs =>
        (rs.map (urlListCitations hostnameOf)).getD []
    | WebSearchResults.zhipuHunyuan rs => (rs.map zhipuCitations).getD []
    | WebSearchResults.websearch rs => (rs.map websearchCitations).getD []
    | WebSearchResults.unhandled => []

/-- `formatCitationsFromBlock` (messageBlock.ts, lines 148-258), for a present
block: web citations first, then knowledge citations (appended only when the
knowledge list is non-empty), then the dedup/renumber pass. -/
def formatCitationsFromBlock (hostnameOf : String → Option String)
    (block : CitationBlock) : List Citation :=
  let formattedCitations :=
    webCitations hostnameOf block ++
      (match block.knowledge with
       | some ks => if 0 < ks.length then knowledgeCitations ks else []
       | none => [])
  dedupAndRenumber formattedCitations

/-- Claim-side reading of the deduplication: keep the first occurrence of
every (non-empty) URL and drop all later entries carrying the same URL.
Stated from the words of the claim, structurally unlike the source's
seen-set filter; proved equal to it below. -/
def keepFirstSpec : List Citation → List Citation
  | [] => []
  | c :: rest =>
    if c.url = "" then
      keepFirstSpec rest
    else
      c :: keepFirstSpec (rest.filter fun d => d.url ≠ c.url)
termination_by cs => cs.length
decreasing_by
  · simp only [List.length_cons]; omega
  · simp only [List.length_cons]
    have := List.length_filter_le (fun d : Citation => decide (d.url ≠ c.url)) rest
    omega

theorem renumberFrom_map_url :
    ∀ (cs : List Citation) (n : Nat),
      (renumberFrom n cs).map Citation.url = cs.map Citation.url := by
  intro cs
  induction cs with
  | nil => intro n; rfl
  | cons c rest ih => intro n; simp [renumberFrom, ih]

theorem renumberFrom_length :
    ∀ (cs : List Citation) (n : Nat), (renumberFrom n cs).length = cs.length := by
  intro cs
  induction cs with
  | nil => intro n; rfl
  | cons c rest ih => intro n; simp [renumberFrom, ih]

theorem renumberFrom_map_number :
    ∀ (cs : List Citation) (n : Nat),
      (renumberFrom n cs).map Citation.number = List.range' (n + 1) cs.length := by
  intro cs
  induction cs with
  | nil => intro n; rfl
  | cons c rest ih =>
    intro n
    simp only [renumberFrom, List.map_cons, List.length_cons, List.range'_succ, ih]

theorem mem_dedupKeepFirst :
    ∀ (cs : List Citation) (seen : List String) (c : Citation),
      c ∈ dedupKeepFirst seen cs → c.url ≠ "" ∧ c.url ∉ seen := by
  intro cs
  induction cs with
  | nil => intro seen c h; simp [dedupKeepFirst] at h
  | cons d rest ih =>
    intro seen c h
    rw [dedupKeepFirst] at h
    split at h
    · exact ih seen c h
    · next hcond =>
        rcases List.mem_cons.mp h with rfl | h2
        · exact not_or.mp hcond
        · have h3 := ih _ c h2
          exact ⟨h3.1, fun hmem => h3.2 (List.mem_cons_of_mem _ hmem)⟩

theorem nodup_map_url_dedupKeepFirst :
    ∀ (cs : List Citation) (seen : List String),
      ((dedupKeepFirst seen cs).map Citation.url).Nodup := by
  intro cs
  induction cs with
  | nil => intro seen; simp [dedupKeepFirst]
  | cons d rest ih =>
    intro seen
    rw [dedupKeepFirst]
    split
    · exact ih seen
    · simp only [List.map_cons, List.nodup_cons]
      refine ⟨?_, ih _⟩
      intro hmem
      rcases List.mem_map.mp hmem with ⟨c, hc, hurl⟩
      have h2 := (mem_dedupKeepFirst rest (d.url :: seen) c hc).2
      exact h2 (by rw [hurl]; exact List.mem_cons_self _ _)

theorem dedupKeepFirst_eq_keepFirstSpec :
    ∀ (cs : List Citation) (seen : List String),
      dedupKeepFirst seen cs = keepFirstSpec (cs.filter fun c => c.url ∉ seen) := by
  intro cs
  induction cs with
  | nil => intro seen; simp [dedupKeepFirst, keepFirstSpec]
  | cons c rest ih =>
    intro seen
    by_cases hseen : c.url ∈ seen
    · rw [dedupKeepFirst, if_pos (Or.inr hseen)]
      have hdrop : ((c :: rest).filter fun d => d.url ∉ seen) =
          rest.filter fun d => d.url ∉ seen := by
        simp [List.filter_cons, hseen]
      rw [hdrop, ih]
    · have hkeep : ((c :: rest).filter fun d => d.url ∉ seen) =
          c :: (rest.filter fun d => d.url ∉ seen) := by
        simp [List.filter_cons, hseen]
      by_cases hurl : c.url = ""
      · rw [dedupKeepFirst, if_pos (Or.inl hurl), hkeep, keepFirstSpec, if_pos hurl, ih]
      · rw [dedupKeepFirst, if_neg (not_or.mpr ⟨hurl, hseen⟩), hkeep, keepFirstSpec,
          if_neg hurl, ih, List.filter_filter]
        have hf : (List.filter (fun d : Citation => decide (d.url ∉ c.url :: seen)) rest) =
            (List.filter (fun a : Citation =>
              decide (a.url ≠ c.url) && decide (a.url ∉ seen)) rest) := by
          apply List.filter_congr
          intro d _
          by_cases h1 : d.url = c.url <;> by_cases h2 : d.url ∈ seen <;> simp [h1, h2]
        rw [hf]

theorem dedupKeepFirst_nil_eq_keepFirstSpec (cs : List Citation) :
    dedupKeepFirst [] cs = keepFirstSpec cs := by
  rw [dedupKeepFirst_eq_keepFirstSpec cs []]
  congr 1
  have h : (fun c : Citation => decide (c.url ∉ ([] : List String))) = fun _ => true := by
    funext c; simp
  rw [h, List.filter_true]

theorem dedupAndRenumber_eq_spec (cs : List Citation) :
    dedupAndRenumber cs = renumberFrom 0 (keepFirstSpec cs) := by
  simp only [dedupAndRenumber, dedupKeepFirst_nil_eq_keepFirstSpec]

theorem dedupAndRenumber_url_nodup (cs : List Citation) :
    ((dedupAndRenumber cs).map Citation.url).Nodup := by
  simp only [dedupAndRenumber]
  rw [renumberFrom_map_url]
  exact nodup_map_url_dedupKeepFirst cs []

theorem dedupAndRenumber_numbers (cs : List Citation) :
    (dedupAndRenumber cs).map Citation.number =
      List.range' 1 (dedupAndRenumber cs).length := by
  simp only [dedupAndRenumber]
  rw [renumberFrom_map_number, renumberFrom_length]

theorem mem_dedupAndRenumber_url_ne_empty (cs : List Citation) (c : Citation)
    (hc : c ∈ dedupAndRenumber cs) : c.url ≠ "" := by
  have h1 : c.url ∈ (dedupAndRenumber cs).map Citation.url :=
    List.mem_map_of_mem _ hc
  simp only [dedupAndRenumber] at h1
  rw [renumberFrom_map_url] at h1
  rcases List.mem_map.mp h1 with ⟨d, hd, hurl⟩
  rw [← hurl]
  exact (mem_dedupKeepFirst cs [] d hd).1

/-- **C4.** For every input citation list, the harvester deduplicates by URL
keeping the first occurrence and dropping later duplicates (the claim-side
`keepFirstSpec`), and renumbers the survivors contiguously `1..N` in
first-occurrence order; in particular a `formatCitationsFromBlock` input with
URLs `["a.com", "b.com", "a.com"]` yields an output of length 2 with numbers
`[1, 2]` and URLs in first-occurrence order. -/
theorem formatCitations_dedup_renumber :
    (∀ cs : List Citation,
      dedupAndRenumber cs = renumberFrom 0 (keepFirstSpec cs) ∧
      ((dedupAndRenumber cs).map Citation.url).Nodup ∧
      (dedupAndRenumber cs).map Citation.number =
        List.range' 1 (dedupAndRenumber cs).length) ∧
    ((formatCitationsFromBlock (fun _ => none)
        { response := some (WebSearchResults.websearch (some
            [{ url := "a.com" }, { url := "b.com" }, { url := "a.com" }])) }).length
        = 2 ∧
      (formatCitationsFromBlock (fun _ => none)
        { response := some (WebSearchResults.websearch (some
            [{ url := "a.com" }, { url := "b.com" }, { url := "a.com" }])) }).map
          Citation.number = [1, 2] ∧
      (formatCitationsFromBlock (fun _ => none)
        { response := some (WebSearchResults.websearch (some
            [{ url := "a.com" }, { url := "b.com" }, { url := "a.com" }])) }).map
          Citation.url = ["a.com", "b.com"]) := by
  exact ⟨fun cs => ⟨dedupAndRenumber_eq_spec cs, dedupAndRenumber_url_nodup cs,
    dedupAndRenumber_numbers cs⟩, rfl, rfl, rfl⟩

/-- **C10.** `formatCitationsFromBlock` never outputs a citation with a missing
or empty URL: any normalized citation whose URL field is absent or empty (for
example a Gemini grounding chunk without a web URI, mapped to `""`) is removed
by the dedup filter before renumbering, so every output citation has a
non-empty URL and the numbering stays contiguous `1..N`. -/
theorem formatCitations_no_empty_url :
    (∀ (hostnameOf : String → Option String) (block : CitationBlock),
      ((formatCitationsFromBlock hostnameOf block).all fun c => !(c.url == "")) = true ∧
      (formatCitationsFromBlock hostnameOf block).map Citation.number =
        List.range' 1 (formatCitationsFromBlock hostnameOf block).length) ∧
    (∀ hostnameOf : String → Option String,
      formatCitationsFromBlock hostnameOf
          { response := some (WebSearchResults.gemini (some
              [{ web := none }, { web := some { uri := some "x.com" } }])) } =
        [{ number := 1, url := "x.com", showFavicon := false,
           type := CitationType.websearch }]) := by
  constructor
  · intro hostnameOf block
    constructor
    · rw [List.all_eq_true]
      intro c hc
      have h := mem_dedupAndRenumber_url_ne_empty _ c hc
      simpa using h
    · exact dedupAndRenumber_numbers _
  · intro hostnameOf
    rfl

/-! ## Reasoning/content splitter and tool-call loop
(providers/AiProvider/OpenAIProvider.ts, `completions`, streaming branch)

The mutable closure variables of `completions` split into two records:
`CState` holds the variables declared in `completions` itself (lines 414-460),
which survive across recursive `processStream` rounds; `RState` holds the
variables declared inside `processStream` (lines 584-596), fresh per round.
`new Date().getTime()` becomes a `Nat` clock that ticks once per consumed
chunk (`now = clock + 1`, so a reading is always positive, as a millisecond
wall-clock reading is); the cooperative pause flag is never set and the
web-search link converters are disabled (`assistant.enableWebSearch` false),
as in the scenarios the claims quantify over. -/

/-- A usage snapshot carried by a chunk. -/
structure Usage where
  prompt_tokens : Nat := 0
  completion_tokens : Nat := 0
  total_tokens : Nat := 0
deriving DecidableEq, Repr

/-- `chunk.choices[0].delta`, with the three vendor reasoning channels. -/
structure ChunkDelta where
  reasoning_content : Option String := none
  reasoning : Option String := none
  thinking : Option String := none
  content : Option String := none
deriving DecidableEq, Repr

/-- One streamed chunk. -/
structure StreamChunk where
  delta : ChunkDelta := {}
  finish_reason : Option String := none
  usage : Option Usage := none
deriving DecidableEq, Repr

/-- The `metrics` object of the final `BLOCK_COMPLETE` chunk (lines 777-783). -/
structure Metrics where
  completion_tokens : Option Nat := none
  time_completion_millsec : Nat := 0
  time_first_token_millsec : Nat := 0
  time_thinking_millsec : Nat := 0
deriving DecidableEq, Repr

/-- The events delivered to `onChunk` by the streaming branch (web-search
events cannot occur with web search disabled, and `LLM_RESPONSE_CREATED` is
emitted by `completions` outside `processStream`). -/
inductive StreamEvent
  | thinkingDelta (text : String) (thinkingMillsec : Nat)
  | thinkingComplete (text : String) (thinkingMillsec : Nat)
  | textDelta (text : String)
  | textComplete (text : String)
  | blockComplete (usage : Option Usage) (metrics : Metrics)
deriving DecidableEq, Repr

/-- `completions`-scope mutable variables (survive recursive rounds):
`hasReasoningContent` (line 415), `lastChunk` (line 417),
`time_first_token_millsec` (line 456), `time_first_token_millsec_delta`
(line 458), `time_first_content_millsec` (line 460). -/
structure CState where
  hasReasoningContent : Bool := false
  lastChunk : String := ""
  timeFirstTokenMillsec : Nat := 0
  timeFirstTokenMillsecDelta : Nat := 0
  timeFirstContentMillsec : Nat := 0
deriving DecidableEq, Repr

/-- `processStream`-local mutable variables, fresh per round (lines 584-596):
`content`, `thinkingContent`, `final_time_completion_millsec_delta`,
`final_time_thinking_millsec_delta`, `lastUsage`, `isFirstChunk`,
`isFirstThinkingChunk`. -/
structure RState where
  content : String := ""
  thinkingContent : String := ""
  finalTimeCompletionMillsecDelta : Nat := 0
  finalTimeThinkingMillsecDelta : Nat := 0
  lastUsage : Option Usage := none
  isFirstChunk : Bool := true
  isFirstThinkingChunk : Bool := true
deriving DecidableEq, Repr

/-- `isReasoningJustDone` (lines 424-453).  The closure mutates `lastChunk`
and `hasReasoningContent`; the embedding returns the updated `CState` next to
the boolean.  When the delta carries no (truthy) content the function returns
early and touches nothing. -/
def isReasoningJustDone (s : CState) (delta : ChunkDelta) : Bool × CState :=
  match truthy delta.content with
  | none => (false, s)
  | some c =>
    let combinedChunks := s.lastChunk ++ c
    let s1 := { s with lastChunk := c }
    if jsIncludes combinedChunks "###Response" || c == "</think>" then
      (true, s1)
    else
      let s2 :=
        if (truthy delta.reasoning_content).isSome || (truthy delta.reasoning).isSome
            || (truthy delta.thinking).isSome then
          { s1 with hasReasoningContent := true }
        else s1
      (s2.hasReasoningContent, s2)

/-- Chunk sub-step 1 (lines 611-644): the reasoning channel.  Latches the
first-token timestamp on the first thinking chunk, appends the reasoning text
to the thinking buffer and emits a `THINKING_DELTA` event. -/
def reasoningStep (startTime now : Nat) (delta : ChunkDelta) (s : CState)
    (r : RState) : CState × RState × List StreamEvent :=
  let reasoningContent := jsOr delta.reasoning_content delta.reasoning
  let latch : CState × RState :=
    if (s.timeFirstTokenMillsec == 0) && r.isFirstThinkingChunk
        && reasoningContent.isSome then
      ({ s with timeFirstTokenMillsec := now,
                timeFirstTokenMillsecDelta := now - startTime },
       { r with isFirstThinkingChunk := false })
    else (s, r)
  let s := latch.1
  let r := latch.2
  match reasoningContent with
  | none => (s, r, [])
  | some rc =>
    ({ s with hasReasoningContent := true },
     { r with thinkingContent := r.thinkingContent ++ rc },
     [StreamEvent.thinkingDelta rc (now - s.timeFirstTokenMillsec)])

/-- Chunk sub-step 2 (lines 646-661): on a reasoning-done signal with the
first-content timestamp still unset, latch it, emit exactly one
`THINKING_COMPLETE` carrying the whole thinking buffer, then clear the
buffer. -/
def reasoningDoneStep (now : Nat) (delta : ChunkDelta) (s : CState)
    (r : RState) : CState × RState × List StreamEvent :=
  let done := isReasoningJustDone s delta
  let s := done.2
  if done.1 && (s.timeFirstContentMillsec == 0) then
    let thinkDelta := now - s.timeFirstTokenMillsec
    ({ s with timeFirstContentMillsec := now, hasReasoningContent := false },
     { r with finalTimeThinkingMillsecDelta := thinkDelta,
              thinkingContent := "", isFirstThinkingChunk := true },
     [StreamEvent.thinkingComplete r.thinkingContent thinkDelta])
  else (s, r, [])

/-- Chunk sub-step 3 (lines 663-695): answer text.  Latches the first-token
timestamp when no reasoning preceded, appends to the answer buffer and emits a
`TEXT_DELTA` event (web-search link conversion disabled). -/
def contentStep (startTime now : Nat) (delta : ChunkDelta) (s : CState)
    (r : RState) : CState × RState × List StreamEvent :=
  match truthy delta.content with
  | none => (s, r, [])
  | some c =>
    let latch : CState × RState :=
      if r.isFirstChunk && (s.timeFirstTokenMillsec == 0)
          && (s.timeFirstTokenMillsecDelta == 0) then
        ({ s with timeFirstTokenMillsec := now,
                  timeFirstTokenMillsecDelta := now - startTime },
         { r with isFirstChunk := false })
      else (s, r)
    (latch.1, { latch.2 with content := latch.2.content ++ c },
     [StreamEvent.textDelta c])

/-- Chunk sub-step 4 (lines 697-763): a non-empty finish reason emits
`TEXT_COMPLETE` with the whole answer buffer, records the completion delta and
captures the chunk's usage snapshot (web-search completion events disabled). -/
def finishStep (startTime now : Nat) (chunk : StreamChunk) (s : CState)
    (r : RState) : CState × RState × List StreamEvent :=
  if (truthy chunk.finish_reason).isSome then
    let r1 := { r with finalTimeCompletionMillsecDelta := now - startTime }
    let r2 :=
      match chunk.usage with
      | some u => { r1 with lastUsage := some u }
      | none => r1
    (s, r2, [StreamEvent.textComplete r.content])
  else (s, r, [])

/-- One iteration of the `for await` loop (lines 598-766): the four sub-steps
in source order. -/
def processChunk (startTime now : Nat) (chunk : StreamChunk) (s : CState)
    (r : RState) : CState × RState × List StreamEvent :=
  let p1 := reasoningStep startTime now chunk.delta s r
  let p2 := reasoningDoneStep now chunk.delta p1.1 p1.2.1
  let p3 := contentStep startTime now chunk.delta p2.1 p2.2.1
  let p4 := finishStep startTime now chunk p3.1 p3.2.1
  (p4.1, p4.2.1, p1.2.2 ++ p2.2.2 ++ p3.2.2 ++ p4.2.2)

/-- The whole `for await` loop: consume the chunk list, threading the state
and the clock (one tick per chunk, `now = clock + 1 > 0`). -/
def runChunks (startTime : Nat) (s : CState) (r : RState) (clock : Nat) :
    List StreamChunk → CState × RState × Nat × List StreamEvent
  | [] => (s, r, clock, [])
  | chunk :: rest =>
    let p := processChunk startTime (clock + 1) chunk s r
    let q := runChunks startTime p.1 p.2.1 (clock + 1) rest
    (q.1, q.2.1, q.2.2.1, p.2.2 ++ q.2.2.2)

/-- The `metrics` of the `BLOCK_COMPLETE` event (lines 771-785): read from the
`completions`-scope state after `processToolUses` returned and from the
round-local state. -/
def roundMetrics (s : CState) (r : RState) : Metrics :=
  { completion_tokens := r.lastUsage.map Usage.completion_tokens
    time_completion_millsec := r.finalTimeCompletionMillsecDelta
    time_first_token_millsec := s.timeFirstTokenMillsecDelta
    time_thinking_millsec := r.finalTimeThinkingMillsecDelta }

/-- `processStream` together with `processToolUses` (lines 501-551 and
560-790), the mutually recursive tool-call loop, for the streaming case.
`streams idx` is the chunk stream the SDK returns for round `idx`;
`executor idx` abstracts `parseAndCallTools` returning a non-empty
tool-result list for round `idx` (in which case the source issues a new
request and recurses).  The source recursion has NO bound, so the embedding is
driven by explicit fuel; `none` models non-termination within the given fuel.
Each round ends by emitting its `BLOCK_COMPLETE` event — after its recursive
child has completed — and then resetting `time_first_token_millsec` and
`time_first_content_millsec` to 0 (the `FIXME` lines 787-789). -/
def processStream (streams : Nat → List StreamChunk) (executor : Nat → Bool)
    (startTime : Nat) :
    Nat → Nat → CState → Nat → Option (CState × Nat × List StreamEvent)
  | 0, _, _, _ => none
  | fuel + 1, idx, s, clock =>
    let p := runChunks startTime s {} clock (streams idx)
    let s1 := p.1
    let r1 := p.2.1
    let clock1 := p.2.2.1
    let evs := p.2.2.2
    if executor idx then
      match processStream streams executor startTime fuel (idx + 1) s1 clock1 with
      | none => none
      | some (s2, clock2, evs2) =>
        some ({ s2 with timeFirstTokenMillsec := 0, timeFirstContentMillsec := 0 },
          clock2,
          evs ++ evs2 ++ [StreamEvent.blockComplete r1.lastUsage (roundMetrics s2 r1)])
    else
      some ({ s1 with timeFirstTokenMillsec := 0, timeFirstContentMillsec := 0 },
        clock1,
        evs ++ [StreamEvent.blockComplete r1.lastUsage (roundMetrics s1 r1)])

/-! ## `check` (OpenAIProvider.ts, lines 1076-1115), non-streaming path -/

/-- `choices[0].message` of a non-streaming chat completion. -/
structure RespMessage where
  content : Option String := none
deriving DecidableEq, Repr

/-- A non-streaming completions response, restricted to the only field the
non-streaming path of `check` reads (`response?.choices[0].message`). -/
structure NonStreamingResponse where
  message : Option RespMessage := none
deriving DecidableEq, Repr

/-- The `{ valid, error }` result of `check`; the error is identified by its
message string. -/
structure CheckResult where
  valid : Bool
  error : Option String := none
deriving DecidableEq, Repr

/-- `check(model, stream = false)` (lines 1076-1115): a missing model yields
`No model found`; a response whose `choices[0].message` is absent makes the
`throw new Error('Empty response')` fire, caught by the surrounding
`try`/`catch` into `{ valid: false, error }`; any present message object
yields `{ valid: true, error: null }`. -/
def check (model : Option String) (response : NonStreamingResponse) :
    CheckResult :=
  match model with
  | none => { valid := false, error := some "No model found" }
  | some _ =>
    match response.message with
    | none => { valid := false, error := some "Empty response" }
    | some _ => { valid := true, error := none }

/-- **C1 (code evaluation).** The `processToolUses`/`processStream` recursion
of the source has no maximum round count and no tool-loop-exhausted error:
with a tool executor that returns a further tool call on every round, the
loop never terminates — for EVERY fuel bound the model reports
non-termination (`none`), and no exhaustion error event exists to report.
This contradicts the claim, which the spec itself flags (§9) as the intended
behavior the code lacks. -/
theorem processStream_unbounded_loop :
    ∀ (streams : Nat → List StreamChunk) (startTime fuel idx clock : Nat)
      (s : CState),
      processStream streams (fun _ => true) startTime fuel idx s clock = none := by
  intro streams startTime fuel
  induction fuel with
  | zero => intro idx clock s; rfl
  | succ n ih =>
    intro idx clock s
    simp [processStream, ih]

/-- **C5.** For the chunk stream `{reasoning:"think1"}`, `{reasoning:"think2"}`,
`{content:"Answer"}`, `{finish:true}` with no tool calls found, `processStream`
emits events in exactly the order thinking-delta("think1"),
thinking-delta("think2"), thinking-complete("think1think2"),
text-delta("Answer"), text-complete("Answer"), block-complete. -/
theorem processStream_scenario_order :
    (processStream
        (fun _ =>
          [{ delta := { reasoning_content := some "think1" } },
           { delta := { reasoning_content := some "think2" } },
           { delta := { content := some "Answer" } },
           { finish_reason := some "stop" }])
        (fun _ => false) 0 1 0 {} 0).map (fun p => p.2.2) =
      some
        [StreamEvent.thinkingDelta "think1" 0,
         StreamEvent.thinkingDelta "think2" 1,
         StreamEvent.thinkingComplete "think1think2" 2,
         StreamEvent.textDelta "Answer",
         StreamEvent.textComplete "Answer",
         StreamEvent.blockComplete none
           { completion_tokens := none, time_completion_millsec := 4,
             time_first_token_millsec := 1, time_thinking_millsec := 2 }] := by
  decide

/-- **C7 counterexample.** A non-streaming response that carries a message
OBJECT but no message content (`choices[0].message.content` absent) is
accepted by `check`: it returns `{ valid: true, error: null }`, not
`{ valid: false, error: "Empty response" }` — the claim fails for such a
response, because the source only tests `!response?.choices[0].message`. -/
theorem check_empty_content_accepted :
    check (some "gpt-4o") { message := some { content := none } } =
      { valid := true, error := none } := rfl

/-- **C7 (amended).** The non-streaming validity check tests only the PRESENCE
of the message object: when `choices[0].message` is absent it returns
`{ valid: false, error: "Empty response" }` and never `valid: true`; when a
message object is present it returns `{ valid: true }` even if the message
content is empty. -/
theorem check_message_presence :
    ∀ (m : String) (response : NonStreamingResponse),
      check (some m) response =
        if response.message.isSome then { valid := true, error := none }
        else { valid := false, error := some "Empty response" } := by
  intro m response
  cases response with
  | mk msg => cases msg <;> rfl

/-- Two-round request exhibiting the per-round timestamp reset: round 0
carries reasoning then an answer (latching both timestamps), the tool executor
fires once, and round 1 is a plain answer round. -/
def resetDemoStreams : Nat → List StreamChunk := fun idx =>
  if idx = 0 then
    [{ delta := { reasoning_content := some "R" } },
     { delta := { content := some "A" }, finish_reason := some "stop",
       usage := some { prompt_tokens := 10, completion_tokens := 1, total_tokens := 11 } }]
  else
    [{ delta := { content := some "B" }, finish_reason := some "stop",
       usage := some { prompt_tokens := 20, completion_tokens := 3, total_tokens := 23 } }]

/-- **C2 (code evaluation).** In a two-round request the first-token and
first-content timestamps ARE reset by a later round of the same request:
round 0 latches `time_first_token_millsec = 1` and
`time_first_content_millsec = 2` (both non-zero), the whole two-round request
completes, and the recursive round-1 call — which the source performs inside
round 0's `processToolUses`, before round 0 emits its own terminal event —
returns with both values reset to 0 (the `FIXME` epilogue, lines 787-789).
The spec (§9) flags exactly this per-round reset as a deviation from the
request-lifetime latching the claim states. -/
theorem timestamps_reset_by_inner_round :
    ((runChunks 0 ({} : CState) ({} : RState) 0 (resetDemoStreams 0)).1.timeFirstTokenMillsec = 1 ∧
     (runChunks 0 ({} : CState) ({} : RState) 0 (resetDemoStreams 0)).1.timeFirstContentMillsec = 2) ∧
    (processStream resetDemoStreams (fun i => i == 0) 0 2 0 {} 0).isSome = true ∧
    (processStream resetDemoStreams (fun i => i == 0) 0 1 1
        (runChunks 0 ({} : CState) ({} : RState) 0 (resetDemoStreams 0)).1
        (runChunks 0 ({} : CState) ({} : RState) 0 (resetDemoStreams 0)).2.2.1).map
      (fun p => (p.1.timeFirstTokenMillsec, p.1.timeFirstContentMillsec)) =
      some (0, 0) := by
  decide

/-- Event classifier for the terminal `BLOCK_COMPLETE` events. -/
def isBlockComplete : StreamEvent → Bool
  | StreamEvent.blockComplete _ _ => true
  | _ => false

/-- Two-round request with distinct usage snapshots per round: round 0's
finish chunk carries completion-token count 1, round 1's carries 2. -/
def twoRoundStreams : Nat → List StreamChunk := fun idx =>
  if idx = 0 then
    [{ delta := { content := some "A" }, finish_reason := some "stop",
       usage := some { prompt_tokens := 10, completion_tokens := 1, total_tokens := 11 } }]
  else
    [{ delta := { content := some "B" }, finish_reason := some "stop",
       usage := some { prompt_tokens := 20, completion_tokens := 2, total_tokens := 22 } }]

/-- **C8 counterexample.** In a two-round request the trace contains TWO
block-complete events, not exactly one, and the last one (the outermost
round's) carries round 0's usage snapshot (completion_tokens 1), not the last
usage snapshot seen across all rounds (round 1's, completion_tokens 2):
`lastUsage` is a per-round local. -/
theorem blockComplete_not_unique :
    (processStream twoRoundStreams (fun i => i == 0) 0 2 0 {} 0).map
        (fun p => (p.2.2.countP isBlockComplete, p.2.2.getLast?)) =
      some (2, some (StreamEvent.blockComplete
        (some { prompt_tokens := 10, completion_tokens := 1, total_tokens := 11 })
        { completion_tokens := some 1, time_completion_millsec := 1,
          time_first_token_millsec := 1, time_thinking_millsec := 0 })) := by
  decide

/-- The usage snapshot a round's chunk loop leaves in `lastUsage`: the source
captures `chunk.usage` only on chunks whose finish reason is non-empty
(lines 712-716). -/
def chunkLastUsage (acc : Option Usage) : List StreamChunk → Option Usage
  | [] => acc
  | chunk :: rest =>
    chunkLastUsage
      (if (truthy chunk.finish_reason).isSome then
        match chunk.usage with
        | some u => some u
        | none => acc
      else acc) rest

/-- The number of rounds the tool loop runs when it terminates within the
given fuel: one when the executor reports no tool call, else one more than the
recursive rounds. -/
def roundsRun (executor : Nat → Bool) : Nat → Nat → Option Nat
  | 0, _ => none
  | fuel + 1, idx =>
    if executor idx then (roundsRun executor fuel (idx + 1)).map (· + 1)
    else some 1

theorem isReasoningJustDone_tfc (s : CState) (delta : ChunkDelta) :
    (isReasoningJustDone s delta).2.timeFirstContentMillsec =
      s.timeFirstContentMillsec := by
  unfold isReasoningJustDone
  rcases truthy delta.content with _ | c
  · rfl
  · dsimp only
    split
    · rfl
    · split <;> rfl

theorem reasoningStep_facts (startTime now : Nat) (delta : ChunkDelta)
    (s : CState) (r : RState) :
    (reasoningStep startTime now delta s r).2.1.content = r.content ∧
    (reasoningStep startTime now delta s r).2.1.lastUsage = r.lastUsage ∧
    ((reasoningStep startTime now delta s r).2.2).countP isBlockComplete = 0 ∧
    (reasoningStep startTime now delta s r).1.timeFirstContentMillsec =
      s.timeFirstContentMillsec := by
  unfold reasoningStep
  rcases h : jsOr delta.reasoning_content delta.reasoning with _ | rc <;>
    dsimp only <;> split <;> simp [isBlockComplete]

theorem reasoningDoneStep_facts (now : Nat) (delta : ChunkDelta)
    (s : CState) (r : RState) :
    (reasoningDoneStep now delta s r).2.1.content = r.content ∧
    (reasoningDoneStep now delta s r).2.1.lastUsage = r.lastUsage ∧
    ((reasoningDoneStep now delta s r).2.2).countP isBlockComplete = 0 := by
  unfold reasoningDoneStep
  dsimp only
  split <;> simp [isBlockComplete]

theorem contentStep_facts (startTime now : Nat) (delta : ChunkDelta)
    (s : CState) (r : RState) :
    (contentStep startTime now delta s r).2.1.thinkingContent = r.thinkingContent ∧
    (contentStep startTime now delta s r).2.1.lastUsage = r.lastUsage ∧
    ((contentStep startTime now delta s r).2.2).countP isBlockComplete = 0 ∧
    (contentStep startTime now delta s r).1.timeFirstContentMillsec =
      s.timeFirstContentMillsec := by
  unfold contentStep
  rcases h : truthy delta.content with _ | c <;> dsimp only <;> (try split) <;>
    simp [isBlockComplete]

theorem finishStep_facts (startTime now : Nat) (chunk : StreamChunk)
    (s : CState) (r : RState) :
    (finishStep startTime now chunk s r).1 = s ∧
    (finishStep startTime now chunk s r).2.1.content = r.content ∧
    (finishStep startTime now chunk s r).2.1.thinkingContent = r.thinkingContent ∧
    (finishStep startTime now chunk s r).2.1.lastUsage =
      (if (truthy chunk.finish_reason).isSome then
        match chunk.usage with
        | some u => some u
        | none => r.lastUsage
      else r.lastUsage) ∧
    ((finishStep startTime now chunk s r).2.2).countP isBlockComplete = 0 := by
  unfold finishStep
  split
  · rcases chunk.usage with _ | u <;> simp [isBlockComplete]
  · simp [isBlockComplete]

theorem processChunk_facts (startTime now : Nat) (chunk : StreamChunk)
    (s : CState) (r : RState) :
    ((processChunk startTime now chunk s r).2.2).countP isBlockComplete = 0 ∧
    (processChunk startTime now chunk s r).2.1.lastUsage =
      (if (truthy chunk.finish_reason).isSome then
        match chunk.usage with
        | some u => some u
        | none => r.lastUsage
      else r.lastUsage) := by
  simp only [processChunk]
  generalize hq1 : reasoningStep startTime now chunk.delta s r = q1
  generalize hq2 : reasoningDoneStep now chunk.delta q1.1 q1.2.1 = q2
  generalize hq3 : contentStep startTime now chunk.delta q2.1 q2.2.1 = q3
  generalize hq4 : finishStep startTime now chunk q3.1 q3.2.1 = q4
  have h1 := reasoningStep_facts startTime now chunk.delta s r
  rw [hq1] at h1
  have h2 := reasoningDoneStep_facts now chunk.delta q1.1 q1.2.1
  rw [hq2] at h2
  have h3 := contentStep_facts startTime now chunk.delta q2.1 q2.2.1
  rw [hq3] at h3
  have h4 := finishStep_facts startTime now chunk q3.1 q3.2.1
  rw [hq4] at h4
  constructor
  · simp [List.countP_append, h1.2.2.1, h2.2.2, h3.2.2.1, h4.2.2.2.2]
  · rw [h4.2.2.2.1, h3.2.1, h2.2.1, h1.2.1]

theorem runChunks_facts :
    ∀ (chunks : List StreamChunk) (startTime : Nat) (s : CState) (r : RState)
      (clock : Nat),
      ((runChunks startTime s r clock chunks).2.2.2).countP isBlockComplete = 0 ∧
      (runChunks startTime s r clock chunks).2.1.lastUsage =
        chunkLastUsage r.lastUsage chunks := by
  intro chunks
  induction chunks with
  | nil => intro startTime s r clock; exact ⟨rfl, rfl⟩
  | cons chunk rest ih =>
    intro startTime s r clock
    simp only [runChunks]
    generalize hp : processChunk startTime (clock + 1) chunk s r = p
    have hpf := processChunk_facts startTime (clock + 1) chunk s r
    rw [hp] at hpf
    constructor
    · simp [List.countP_append, hpf.1, (ih startTime p.1 p.2.1 (clock + 1)).1]
    · rw [(ih startTime p.1 p.2.1 (clock + 1)).2, hpf.2]
      rfl

/-- **C8 (amended).** Each round emits exactly one block-complete event at its
own end, the inner rounds' before the outer's: whenever the tool loop
terminates, the number of block-complete events equals the number of rounds
run, the trace's LAST event is the outermost round's block-complete, and that
event's usage field is the last usage snapshot seen on the outermost round's
own chunks (usage is tracked per round, not across rounds). -/
theorem processStream_blockComplete_per_round :
    ∀ (streams : Nat → List StreamChunk) (executor : Nat → Bool)
      (startTime fuel idx : Nat) (s : CState) (clock : Nat)
      (s2 : CState) (clock2 : Nat) (evs : List StreamEvent),
      processStream streams executor startTime fuel idx s clock =
        some (s2, clock2, evs) →
      roundsRun executor fuel idx = some (evs.countP isBlockComplete) ∧
      ∃ (hd : List StreamEvent) (m : Metrics),
        evs = hd ++ [StreamEvent.blockComplete
          (chunkLastUsage none (streams idx)) m] := by
  intro streams executor startTime fuel
  induction fuel with
  | zero =>
    intro idx s clock s2 clock2 evs h
    exact absurd h (by simp [processStream])
  | succ n ih =>
    intro idx s clock s2 clock2 evs h
    rw [processStream] at h
    have hrc := runChunks_facts (streams idx) startTime s {} clock
    by_cases hex : executor idx = true
    · rw [hex, if_pos rfl] at h
      cases hrec : processStream streams executor startTime n (idx + 1)
          (runChunks startTime s {} clock (streams idx)).1
          (runChunks startTime s {} clock (streams idx)).2.2.1 with
      | none => rw [hrec] at h; exact absurd h (by simp)
      | some trip =>
        obtain ⟨s', c', evs2⟩ := trip
        rw [hrec] at h
        simp only [Option.some.injEq, Prod.mk.injEq] at h
        obtain ⟨-, -, hevs⟩ := h
        subst hevs
        have hih := ih (idx + 1)
            (runChunks startTime s {} clock (streams idx)).1
            (runChunks startTime s {} clock (streams idx)).2.2.1
            s' c' evs2 hrec
        constructor
        · rw [roundsRun, if_pos hex, hih.1]
          simp [List.countP_append, hrc.1, isBlockComplete]
        · refine ⟨(runChunks startTime s {} clock (streams idx)).2.2.2 ++ evs2,
            roundMetrics s' (runChunks startTime s {} clock (streams idx)).2.1, ?_⟩
          rw [hrc.2]
    · rw [eq_false_of_ne_true hex, if_neg (by simp)] at h
      simp only [Option.some.injEq, Prod.mk.injEq] at h
      obtain ⟨-, -, hevs⟩ := h
      subst hevs
      constructor
      · rw [roundsRun, if_neg (by simp [hex])]
        simp [List.countP_append, hrc.1, isBlockComplete]
      · exact ⟨(runChunks startTime s {} clock (streams idx)).2.2.2,
          roundMetrics (runChunks startTime s {} clock (streams idx)).1
            (runChunks startTime s {} clock (streams idx)).2.1,
          by rw [hrc.2]⟩

/-- The event trace of the concrete two-round request `twoRoundStreams`. -/
def twoRoundTrace : List StreamEvent :=
  [StreamEvent.textDelta "A", StreamEvent.textComplete "A",
   StreamEvent.textDelta "B", StreamEvent.textComplete "B",
   StreamEvent.blockComplete
     (some { prompt_tokens := 20, completion_tokens := 2, total_tokens := 22 })
     { completion_tokens := some 2, time_completion_millsec := 2,
       time_first_token_millsec := 1, time_thinking_millsec := 0 },
   StreamEvent.blockComplete
     (some { prompt_tokens := 10, completion_tokens := 1, total_tokens := 11 })
     { completion_tokens := some 1, time_completion_millsec := 1,
       time_first_token_millsec := 1, time_thinking_millsec := 0 }]

/-- Witness for `processStream_blockComplete_per_round`: its conclusion at the
concrete two-round request, the hypothesis discharged by evaluation. -/
theorem processStream_blockComplete_per_round_witness :
    roundsRun (fun i => i == 0) 2 0 = some (twoRoundTrace.countP isBlockComplete) ∧
    ∃ (hd : List StreamEvent) (m : Metrics),
      twoRoundTrace = hd ++ [StreamEvent.blockComplete
        (chunkLastUsage none (twoRoundStreams 0)) m] :=
  processStream_blockComplete_per_round twoRoundStreams (fun i => i == 0) 0 2 0 {} 0
    { hasReasoningContent := false, lastChunk := "B", timeFirstTokenMillsec := 0,
      timeFirstTokenMillsecDelta := 1, timeFirstContentMillsec := 0 }
    2 twoRoundTrace (by decide)

/-- Left-to-right checker for the reasoning-buffer law over a round's event
trace: replay the concatenation of the thinking-delta texts into `buf`; a
thinking-complete event must be the first one (`seen = false`) and must carry
exactly `buf`, after which the replay restarts from the cleared buffer.
`none` signals a violation. -/
def thinkingLawScan : List StreamEvent → String → Bool → Option (String × Bool)
  | [], buf, seen => some (buf, seen)
  | StreamEvent.thinkingDelta t _ :: rest, buf, seen =>
      thinkingLawScan rest (buf ++ t) seen
  | StreamEvent.thinkingComplete txt _ :: rest, buf, seen =>
      if !seen && txt == buf then thinkingLawScan rest "" true else none
  | _ :: rest, buf, seen => thinkingLawScan rest buf seen

theorem thinkingLawScan_append :
    ∀ (a b : List StreamEvent) (buf : String) (seen : Bool),
      thinkingLawScan (a ++ b) buf seen =
        (thinkingLawScan a buf seen).bind fun p => thinkingLawScan b p.1 p.2 := by
  intro a
  induction a with
  | nil => intro b buf seen; rfl
  | cons e rest ih =>
    intro b buf seen
    cases e with
    | thinkingDelta t ms =>
        simp only [List.cons_append, thinkingLawScan]
        exact ih b _ seen
    | thinkingComplete txt ms =>
        simp only [List.cons_append, thinkingLawScan]
        split <;> simp [ih]
    | textDelta t =>
        simp only [List.cons_append, thinkingLawScan]
        exact ih b buf seen
    | textComplete t =>
        simp only [List.cons_append, thinkingLawScan]
        exact ih b buf seen
    | blockComplete u m =>
        simp only [List.cons_append, thinkingLawScan]
        exact ih b buf seen

theorem reasoningStep_scan (startTime now : Nat) (delta : ChunkDelta)
    (s : CState) (r : RState) (seen : Bool) :
    thinkingLawScan (reasoningStep startTime now delta s r).2.2
        r.thinkingContent seen =
      some ((reasoningStep startTime now delta s r).2.1.thinkingContent, seen) := by
  unfold reasoningStep
  rcases h : jsOr delta.reasoning_content delta.reasoning with _ | rc <;>
    dsimp only <;> (try split) <;> simp [thinkingLawScan]

theorem reasoningDoneStep_scan (now : Nat) (hnow : 0 < now) (delta : ChunkDelta)
    (s : CState) (r : RState) (seen : Bool)
    (hseen : s.timeFirstContentMillsec = 0 → seen = false) :
    ∃ seen2 : Bool,
      thinkingLawScan (reasoningDoneStep now delta s r).2.2
          r.thinkingContent seen =
        some ((reasoningDoneStep now delta s r).2.1.thinkingContent, seen2) ∧
      ((reasoningDoneStep now delta s r).1.timeFirstContentMillsec = 0 →
        seen2 = false) := by
  unfold reasoningDoneStep
  dsimp only
  split
  · next hcond =>
      have htfc : s.timeFirstContentMillsec = 0 := by
        have h2 := (Bool.and_eq_true _ _).mp hcond |>.2
        rw [Nat.beq_eq_true_eq, isReasoningJustDone_tfc] at h2
        exact h2
      have hs : seen = false := hseen htfc
      subst hs
      refine ⟨true, by simp [thinkingLawScan], ?_⟩
      intro h0
      have hnow0 : now = 0 := h0
      omega
  · refine ⟨seen, by simp [thinkingLawScan], ?_⟩
    rw [isReasoningJustDone_tfc]
    exact hseen

theorem contentStep_scan (startTime now : Nat) (delta : ChunkDelta)
    (s : CState) (r : RState) (buf : String) (seen : Bool) :
    thinkingLawScan (contentStep startTime now delta s r).2.2 buf seen =
      some (buf, seen) := by
  unfold contentStep
  rcases h : truthy delta.content with _ | c <;> simp [thinkingLawScan]

theorem finishStep_scan (startTime now : Nat) (chunk : StreamChunk)
    (s : CState) (r : RState) (buf : String) (seen : Bool) :
    thinkingLawScan (finishStep startTime now chunk s r).2.2 buf seen =
      some (buf, seen) := by
  unfold finishStep
  split
  · rcases chunk.usage with _ | u <;> simp [thinkingLawScan]
  · simp [thinkingLawScan]

theorem processChunk_scan (startTime now : Nat) (hnow : 0 < now)
    (chunk : StreamChunk) (s : CState) (r : RState) (seen : Bool)
    (hseen : s.timeFirstContentMillsec = 0 → seen = false) :
    ∃ seen2 : Bool,
      thinkingLawScan (processChunk startTime now chunk s r).2.2
          r.thinkingContent seen =
        some ((processChunk startTime now chunk s r).2.1.thinkingContent, seen2) ∧
      ((processChunk startTime now chunk s r).1.timeFirstContentMillsec = 0 →
        seen2 = false) := by
  simp only [processChunk]
  generalize hq1 : reasoningStep startTime now chunk.delta s r = q1
  generalize hq2 : reasoningDoneStep now chunk.delta q1.1 q1.2.1 = q2
  generalize hq3 : contentStep startTime now chunk.delta q2.1 q2.2.1 = q3
  generalize hq4 : finishStep startTime now chunk q3.1 q3.2.1 = q4
  have h1s := reasoningStep_scan startTime now chunk.delta s r seen
  rw [hq1] at h1s
  have h1f := reasoningStep_facts startTime now chunk.delta s r
  rw [hq1] at h1f
  have h2ex := reasoningDoneStep_scan now hnow chunk.delta q1.1 q1.2.1 seen
    (by rw [h1f.2.2.2]; exact hseen)
  rw [hq2] at h2ex
  obtain ⟨seen2, h2s, h2p⟩ := h2ex
  have h3s := contentStep_scan startTime now chunk.delta q2.1 q2.2.1
    q2.2.1.thinkingContent seen2
  rw [hq3] at h3s
  have h3f := contentStep_facts startTime now chunk.delta q2.1 q2.2.1
  rw [hq3] at h3f
  have h4s := finishStep_scan startTime now chunk q3.1 q3.2.1
    q2.2.1.thinkingContent seen2
  rw [hq4] at h4s
  have h4f := finishStep_facts startTime now chunk q3.1 q3.2.1
  rw [hq4] at h4f
  refine ⟨seen2, ?_, ?_⟩
  · simp only [thinkingLawScan_append, h1s, Option.some_bind, h2s, h3s, h4s]
    rw [h4f.2.2.1, h3f.1]
  · rw [h4f.1, h3f.2.2.2]
    exact h2p

theorem runChunks_scan :
    ∀ (chunks : List StreamChunk) (startTime : Nat) (s : CState) (r : RState)
      (clock : Nat) (seen : Bool),
      (s.timeFirstContentMillsec = 0 → seen = false) →
      ∃ seen2 : Bool,
        thinkingLawScan (runChunks startTime s r clock chunks).2.2.2
            r.thinkingContent seen =
          some ((runChunks startTime s r clock chunks).2.1.thinkingContent, seen2) ∧
        ((runChunks startTime s r clock chunks).1.timeFirstContentMillsec = 0 →
          seen2 = false) := by
  intro chunks
  induction chunks with
  | nil => intro startTime s r clock seen hseen; exact ⟨seen, rfl, hseen⟩
  | cons chunk rest ih =>
    intro startTime s r clock seen hseen
    simp only [runChunks]
    generalize hp : processChunk startTime (clock + 1) chunk s r = p
    have hpl := processChunk_scan startTime (clock + 1) (Nat.succ_pos clock)
      chunk s r seen hseen
    rw [hp] at hpl
    obtain ⟨seen1, hps, hpp⟩ := hpl
    obtain ⟨seen2, hrs, hrp⟩ := ih startTime p.1 p.2.1 (clock + 1) seen1 hpp
    exact ⟨seen2, by simp only [thinkingLawScan_append, hps, Option.some_bind, hrs], hrp⟩

theorem reasoningDoneStep_clears (now : Nat) (delta : ChunkDelta) (s : CState)
    (r : RState) :
    (reasoningDoneStep now delta s r).2.2 = [] ∨
    (reasoningDoneStep now delta s r).2.1.thinkingContent = "" := by
  unfold reasoningDoneStep
  dsimp only
  split
  · exact Or.inr rfl
  · exact Or.inl rfl

/-- **C6.** Within one round, at most one of the reasoning buffer and the
answer buffer accumulates text at any instant — each of the four sequential
per-chunk sub-steps of the source loop touches at most one of the two buffers
(the reasoning steps leave `content` untouched, the answer and finish steps
leave `thinkingContent` untouched) — and the text carried by the
thinking-complete event equals the exact concatenation, in emission order, of
the texts of all prior thinking-delta events of that round, there is at most
one such event, and the buffer is cleared right after it is emitted (checked
by `thinkingLawScan`, which replays the round's trace from the empty buffer,
and by the clearing disjunction for the emitting sub-step). -/
theorem reasoning_answer_exclusivity :
    (∀ (startTime now : Nat) (chunk : StreamChunk) (s : CState) (r : RState),
      (reasoningStep startTime now chunk.delta s r).2.1.content = r.content ∧
      (reasoningDoneStep now chunk.delta s r).2.1.content = r.content ∧
      (contentStep startTime now chunk.delta s r).2.1.thinkingContent =
        r.thinkingContent ∧
      (finishStep startTime now chunk s r).2.1.content = r.content ∧
      (finishStep startTime now chunk s r).2.1.thinkingContent =
        r.thinkingContent ∧
      ((reasoningDoneStep now chunk.delta s r).2.2 = [] ∨
        (reasoningDoneStep now chunk.delta s r).2.1.thinkingContent = "")) ∧
    (∀ (startTime : Nat) (s : CState) (clock : Nat) (chunks : List StreamChunk),
      (thinkingLawScan (runChunks startTime s {} clock chunks).2.2.2
        "" false).isSome = true) := by
  constructor
  · intro startTime now chunk s r
    exact ⟨(reasoningStep_facts startTime now chunk.delta s r).1,
      (reasoningDoneStep_facts now chunk.delta s r).1,
      (contentStep_facts startTime now chunk.delta s r).1,
      (finishStep_facts startTime now chunk s r).2.1,
      (finishStep_facts startTime now chunk s r).2.2.1,
      reasoningDoneStep_clears now chunk.delta s r⟩
  · intro startTime s clock chunks
    obtain ⟨seen2, hs, -⟩ :=
      runChunks_scan chunks startTime s {} clock false (fun _ => rfl)
    have hs2 : thinkingLawScan (runChunks startTime s {} clock chunks).2.2.2
        "" false =
        some ((runChunks startTime s {} clock chunks).2.1.thinkingContent,
          seen2) := hs
    rw [hs2]
    rfl
